import Mathlib

/-!
Shallow embedding of the time-series derivation pipeline of `src/main.py`:
loading and cleaning (`load_data`, lines 34-46), date-range slicing
(`df.loc`, line 104), calendar resampling with `last`/`sum` aggregation
(line 112), KPI percent variation (lines 121-123), percentage change
(`pct_change`, line 225), rolling means (lines 247, 294-295), and
moving-average crossover detection (lines 312-313).

Timestamps are modelled as natural numbers, numeric cell values as exact
rationals.  Floating-point results that can be NaN or infinite are
modelled by the `FVal` type; cells that can be missing (NaN / NaT) are
modelled with `Option`.
-/

/-- Result of a pandas floating-point computation: a finite rational, a
signed infinity, or NaN (undefined). -/
inductive FVal
  | nan
  | pinf
  | ninf
  | fin (q : ℚ)
  deriving DecidableEq, Repr

/-- One step of `Series.pct_change() * 100` (line 225 of `src/main.py`),
i.e. `(curr - prev) / prev * 100`.  When `prev = 0`, IEEE division gives
NaN for `0 / 0` and a signed infinity for a nonzero numerator. -/
def pctStep (prev curr : ℚ) : FVal :=
  if prev = 0 then
    if curr = 0 then FVal.nan
    else if 0 < curr then FVal.pinf
    else FVal.ninf
  else FVal.fin ((curr - prev) / prev * 100)

/-- `close_m.pct_change() * 100` (line 225): NaN at index 0 (no prior
sample), `pctStep` on each adjacent pair afterwards. -/
def pct_change_x100 (xs : List ℚ) : List FVal :=
  match xs with
  | [] => []
  | x :: tail => FVal.nan :: List.zipWith pctStep (x :: tail) tail

/-- Elementwise `<` of two float series: NaN compares false. -/
def ltB : Option ℚ → Option ℚ → Bool
  | some a, some b => decide (a < b)
  | _, _ => false

/-- Elementwise `>` of two float series: NaN compares false. -/
def gtB : Option ℚ → Option ℚ → Bool
  | some a, some b => decide (b < a)
  | _, _ => false

/-- Elementwise `>=` of two float series: NaN compares false. -/
def geB : Option ℚ → Option ℚ → Bool
  | some a, some b => decide (b ≤ a)
  | _, _ => false

/-- Elementwise `<=` of two float series: NaN compares false. -/
def leB : Option ℚ → Option ℚ → Bool
  | some a, some b => decide (a ≤ b)
  | _, _ => false

/-- `Series.shift(1)`: same length, NaN in front, every value moved one
position later (the last value falls off). -/
def shift1 (xs : List (Option ℚ)) : List (Option ℚ) :=
  (none :: xs).take xs.length

/-- `cross_up = (mm_curta.shift(1) < mm_longa.shift(1)) & (mm_curta >= mm_longa)`
(line 312), pointwise over the common index. -/
def cross_up (s l : List (Option ℚ)) : List Bool :=
  (List.range (min s.length l.length)).map fun i =>
    ltB ((shift1 s).getD i none) ((shift1 l).getD i none)
      && geB (s.getD i none) (l.getD i none)

/-- `cross_dn = (mm_curta.shift(1) > mm_longa.shift(1)) & (mm_curta <= mm_longa)`
(line 313), pointwise over the common index. -/
def cross_dn (s l : List (Option ℚ)) : List Bool :=
  (List.range (min s.length l.length)).map fun i =>
    gtB ((shift1 s).getD i none) ((shift1 l).getD i none)
      && leB (s.getD i none) (l.getD i none)

/-- The observation window `Series.rolling(w)` sees at index `i`: the
latest `min (i+1) w` values ending at `i`. -/
def windowAt (xs : List ℚ) (w i : ℕ) : List ℚ :=
  (xs.take (i + 1)).drop (i + 1 - w)

/-- Arithmetic mean of a list of rationals. -/
def listMean (vs : List ℚ) : ℚ := vs.sum / (vs.length : ℚ)

/-- `Series.rolling(w, min_periods=minp).mean()`: at index `i` the mean of
the window ending at `i` when it holds at least `minp` observations, NaN
otherwise. -/
def rollingMean (xs : List ℚ) (w minp : ℕ) : List (Option ℚ) :=
  (List.range xs.length).map fun i =>
    if minp ≤ (windowAt xs w i).length then some (listMean (windowAt xs w i))
    else none

/-- `df["Close"].rolling(int(win)).mean()` (lines 294-295): pandas leaves
`min_periods` at its default, which equals the window size. -/
def mm (close : List ℚ) (w : ℕ) : List (Option ℚ) := rollingMean close w w

/-- `df["Volume"].rolling(30, min_periods=1).mean()` (line 247). -/
def vol_ma (volume : List ℚ) : List (Option ℚ) := rollingMean volume 30 1

/-- Configuration errors surfaced to the user before computing. -/
inductive ConfigError
  | shortGeLong
  deriving DecidableEq, Repr

/-- The moving-average tab (lines 291-295): when `win_short >= win_long`
the configuration is rejected with a warning and nothing is computed;
otherwise both rolling means are computed. -/
def movingAverages (close : List ℚ) (win_short win_long : ℕ) :
    Except ConfigError (List (Option ℚ) × List (Option ℚ)) :=
  if win_short ≥ win_long then Except.error ConfigError.shortGeLong
  else Except.ok (mm close win_short, mm close win_long)

/-- Aggregation rule used by `resample(...).agg(agg)` (line 111):
`"sum"` for volume, `"last"` for price fields. -/
inductive Agg
  | last
  | sum
  deriving DecidableEq, Repr

/-- The values of the rows that fall in bucket `k`, in series order. -/
def bucketVals (rows : List (ℕ × ℚ)) (b : ℕ → ℕ) (k : ℕ) : List ℚ :=
  (rows.filter fun r => b r.1 == k).map Prod.snd

/-- Aggregate one bucket: `"last"` keeps the final value and is undefined
on an empty bucket; `"sum"` adds the values up and gives `0` on an empty
bucket (pandas sum has `min_count = 0`). -/
def aggregate : Agg → List ℚ → Option ℚ
  | Agg.last, vs => vs.getLast?
  | Agg.sum, vs => some vs.sum

/-- The bucket keys pandas generates for `resample`: every key from the
smallest occupied bucket to the largest, inclusive. -/
def bucketRange : List ℕ → List ℕ
  | [] => []
  | k0 :: ks =>
    (List.range (ks.foldl max k0 + 1 - ks.foldl min k0)).map
      (fun j => ks.foldl min k0 + j)

/-- `df[metrica].resample(freq).agg(agg).dropna()` (line 112): rows are
grouped by the calendar bucket `b` of their timestamp, every bucket from
the first occupied one to the last is aggregated, and undefined entries
are dropped. -/
def resample (rows : List (ℕ × ℚ)) (b : ℕ → ℕ) (a : Agg) : List (ℕ × ℚ) :=
  (bucketRange (rows.map fun r => b r.1)).filterMap fun k =>
    (aggregate a (bucketVals rows b k)).map fun v => (k, v)

/-- One CSV row after type coercion (lines 37-39): each field is `none`
when `pd.to_datetime(..., errors="coerce")` / `pd.to_numeric(...,
errors="coerce")` failed to parse it. -/
structure RawRow where
  openTime : Option ℕ
  openP : Option ℚ
  high : Option ℚ
  low : Option ℚ
  close : Option ℚ
  volume : Option ℚ
  deriving DecidableEq, Repr

/-- Row ordering used by `sort_values("Open time")` (line 43). -/
def rowLE (a b : RawRow) : Prop := a.openTime.getD 0 ≤ b.openTime.getD 0

instance : DecidableRel rowLE := fun a b =>
  inferInstanceAs (Decidable (a.openTime.getD 0 ≤ b.openTime.getD 0))

instance : IsTotal RawRow rowLE := ⟨fun a b => Nat.le_total _ _⟩

instance : IsTrans RawRow rowLE := ⟨fun _ _ _ h1 h2 => Nat.le_trans h1 h2⟩

/-- `load_data` (lines 34-46): drop every row whose timestamp or close
price failed to parse (`dropna(subset=["Open time", "Close"])`), then sort
ascending by timestamp. -/
def load_data (rows : List RawRow) : List RawRow :=
  List.insertionSort rowLE (rows.filter fun r => r.openTime.isSome && r.close.isSome)

/-- `df.loc[str(dt_ini):str(dt_fim)]` (line 104): the rows whose timestamp
lies in the inclusive range `[t0, t1]`, in their original order. -/
def filterRange (rows : List (ℕ × ℚ)) (t0 t1 : ℕ) : List (ℕ × ℚ) :=
  rows.filter fun r => decide (t0 ≤ r.1) && decide (r.1 ≤ t1)

/-- The KPI block (lines 121-123): percent variation over the displayed
series, with `0.0` substituted when the first value is `0`. -/
def kpi_var_pct (serie : List ℚ) : ℚ :=
  let ultimo := serie.getLastD 0
  let primeiro := serie.headD 0
  if primeiro ≠ 0 then (ultimo - primeiro) / primeiro * 100 else 0

/-! ### Helper lemmas -/

theorem getD_map_range {α : Type} (n i : ℕ) (f : ℕ → α) (d : α) :
    ((List.range n).map f).getD i d = if i < n then f i else d := by
  rw [List.getD_eq_getElem?_getD, List.getElem?_map]
  by_cases h : i < n
  · rw [List.getElem?_range h, if_pos h]
    rfl
  · have : (List.range n)[i]? = none := by
      rw [List.getElem?_eq_none]
      simpa using Nat.le_of_not_lt h
    rw [this, if_neg h]
    rfl

theorem ltB_and_gtB (oa ob : Option ℚ) : (ltB oa ob && gtB oa ob) = false := by
  cases oa with
  | none => simp [ltB]
  | some a =>
    cases ob with
    | none => simp [ltB]
    | some b =>
      simp only [ltB, gtB]
      rcases lt_or_le a b with h | h
      · simp [not_lt.mpr h.le]
      · simp [not_lt.mpr h]

/-! ### Claim theorems -/

/-- C5: whenever the short window is at least the long window (for instance
30 and 30), the moving-average configuration is rejected with a
`ConfigError` before any computation: no moving averages and hence no
crossovers are produced, and the windows are not clamped or silently
corrected. -/
theorem movingAverages_rejects_short_ge_long (close : List ℚ)
    (win_short win_long : ℕ) (h : win_long ≤ win_short) :
    movingAverages close win_short win_long
      = Except.error ConfigError.shortGeLong := by
  simp [movingAverages, h]

theorem movingAverages_rejects_witness :
    (30 : ℕ) ≤ 30
    ∧ movingAverages [1, 2, 3] 30 30 = Except.error ConfigError.shortGeLong :=
  ⟨by decide, movingAverages_rejects_short_ge_long [1, 2, 3] 30 30 (by decide)⟩

/-- C9: `filterRange` keeps exactly the rows whose timestamp lies in the
inclusive range `[t0, t1]`, in the original order (a sublist of the
input); filtering with bounds that cover every timestamp — in particular
the series' own minimum and maximum — returns the series unchanged, and
an empty result is an ordinary value. -/
theorem filterRange_spec (rows : List (ℕ × ℚ)) (t0 t1 : ℕ) :
    List.Sublist (filterRange rows t0 t1) rows
    ∧ (∀ r : ℕ × ℚ, r ∈ filterRange rows t0 t1 ↔ r ∈ rows ∧ t0 ≤ r.1 ∧ r.1 ≤ t1)
    ∧ ((∀ r ∈ rows, t0 ≤ r.1 ∧ r.1 ≤ t1) → filterRange rows t0 t1 = rows) := by
  refine ⟨List.filter_sublist _, ?_, ?_⟩
  · intro r
    simp [filterRange, List.mem_filter, and_assoc]
  · intro h
    rw [filterRange, List.filter_eq_self]
    intro r hr
    simpa using h r hr

theorem filterRange_spec_witness :
    (∀ r ∈ [(1, (5 : ℚ)), (3, 7)], 1 ≤ r.1 ∧ r.1 ≤ 3)
    ∧ filterRange [(1, (5 : ℚ)), (3, 7)] 1 3 = [(1, 5), (3, 7)] :=
  ⟨by decide, (filterRange_spec [(1, (5 : ℚ)), (3, 7)] 1 3).2.2 (by decide)⟩

/-- C10: at no index are the up-crossing and the down-crossing flags both
set: the prior-sample conditions `shortMA[i-1] < longMA[i-1]` and
`shortMA[i-1] > longMA[i-1]` are mutually exclusive, so the two crossing
sets are disjoint. -/
theorem cross_up_dn_disjoint (s l : List (Option ℚ)) (i : ℕ) :
    ((cross_up s l).getD i false && (cross_dn s l).getD i false) = false := by
  rw [cross_up, cross_dn, getD_map_range, getD_map_range]
  by_cases h : i < min s.length l.length
  · rw [if_pos h, if_pos h]
    cases h3 : ltB ((shift1 s).getD i none) ((shift1 l).getD i none) with
    | false => rw [Bool.false_and, Bool.false_and]
    | true =>
      have h2 := ltB_and_gtB ((shift1 s).getD i none) ((shift1 l).getD i none)
      rw [h3, Bool.true_and] at h2
      rw [h2, Bool.false_and, Bool.and_false]
  · rw [if_neg h, if_neg h]
    simp

theorem cross_up_dn_disjoint_witness :
    ((cross_up [some 1, some 3, some 5] [some 4, some 4, some 4]).getD 2 false
      && (cross_dn [some 1, some 3, some 5] [some 4, some 4, some 4]).getD 2 false)
      = false :=
  cross_up_dn_disjoint [some 1, some 3, some 5] [some 4, some 4, some 4] 2

theorem zipWith_tail_getD (xs : List ℚ) (j : ℕ) (h : j + 1 < xs.length) :
    (List.zipWith pctStep xs xs.tail).getD j FVal.nan
      = pctStep (xs.getD j 0) (xs.getD (j + 1) 0) := by
  induction xs generalizing j with
  | nil => simp at h
  | cons x tail ih =>
    cases tail with
    | nil => simp at h
    | cons y rest =>
      cases j with
      | zero => simp
      | succ j =>
        have h2 : j + 1 < (y :: rest).length := by simpa using h
        simpa using ih j h2

theorem pct_getD (xs : List ℚ) (i : ℕ) (h0 : 0 < i) (h : i < xs.length) :
    (pct_change_x100 xs).getD i FVal.nan
      = pctStep (xs.getD (i - 1) 0) (xs.getD i 0) := by
  cases xs with
  | nil => simp at h
  | cons x tail =>
    cases i with
    | zero => exact absurd h0 (by simp)
    | succ j =>
      have : pct_change_x100 (x :: tail)
          = FVal.nan :: List.zipWith pctStep (x :: tail) (x :: tail).tail := rfl
      rw [this, List.getD_cons_succ, zipWith_tail_getD (x :: tail) j h]
      simp

/-- C7: `percentChange` yields `(value[i] - value[i-1]) / value[i-1] * 100`
at every index `i > 0` with a nonzero previous value, no value (NaN) at
index 0, and on the input `[100, 110, 99]` it yields
`[undefined, 10, -10]`. -/
theorem pct_change_spec :
    (∀ (xs : List ℚ) (i : ℕ), 0 < i → i < xs.length → xs.getD (i - 1) 0 ≠ 0 →
        (pct_change_x100 xs).getD i FVal.nan
          = FVal.fin ((xs.getD i 0 - xs.getD (i - 1) 0) / xs.getD (i - 1) 0 * 100))
    ∧ (∀ (x : ℚ) (tail : List ℚ),
        (pct_change_x100 (x :: tail)).getD 0 FVal.nan = FVal.nan)
    ∧ pct_change_x100 [100, 110, 99] = [FVal.nan, FVal.fin 10, FVal.fin (-10)] := by
  refine ⟨?_, ?_, ?_⟩
  · intro xs i h0 h hne
    rw [pct_getD xs i h0 h]
    unfold pctStep
    rw [if_neg hne]
  · intro x tail
    rfl
  · norm_num [pct_change_x100, pctStep]

theorem pct_change_spec_witness :
    0 < 1 ∧ 1 < ([100, 110] : List ℚ).length ∧ ([100, 110] : List ℚ).getD 0 0 ≠ 0
    ∧ (pct_change_x100 [100, 110]).getD 1 FVal.nan
        = FVal.fin ((([100, 110] : List ℚ).getD 1 0 - ([100, 110] : List ℚ).getD 0 0)
            / ([100, 110] : List ℚ).getD 0 0 * 100) :=
  ⟨Nat.one_pos, by decide, by norm_num,
    pct_change_spec.1 [100, 110] 1 Nat.one_pos (by decide) (by norm_num)⟩

/-- C3 (amended): at any index `i > 0` whose previous value is exactly 0,
`percentChange` yields NaN only when the current value is also 0; a
nonzero current value yields a signed infinity.  In no case does the
computation fail. -/
theorem pct_change_zero_prev_spec (xs : List ℚ) (i : ℕ) (h0 : 0 < i)
    (h : i < xs.length) (hz : xs.getD (i - 1) 0 = 0) :
    (pct_change_x100 xs).getD i FVal.nan
      = if xs.getD i 0 = 0 then FVal.nan
        else if 0 < xs.getD i 0 then FVal.pinf else FVal.ninf := by
  rw [pct_getD xs i h0 h]
  unfold pctStep
  rw [if_pos hz]

theorem pct_change_zero_prev_witness :
    0 < 1 ∧ 1 < ([0, 5] : List ℚ).length ∧ ([0, 5] : List ℚ).getD 0 0 = 0
    ∧ (pct_change_x100 [0, 5]).getD 1 FVal.nan
        = if ([0, 5] : List ℚ).getD 1 0 = 0 then FVal.nan
          else if 0 < ([0, 5] : List ℚ).getD 1 0 then FVal.pinf else FVal.ninf :=
  ⟨Nat.one_pos, by decide, by norm_num,
    pct_change_zero_prev_spec [0, 5] 1 Nat.one_pos (by decide) (by norm_num)⟩

/-- C3 counterexample: on the series `[0, 5]` the previous value at index 1
is exactly 0, yet `percentChange` yields positive infinity there — an
infinite value, not the claimed NaN. -/
theorem pct_change_zero_prev_cx :
    pct_change_x100 [0, 5] = [FVal.nan, FVal.pinf] ∧ FVal.pinf ≠ FVal.nan := by
  refine ⟨?_, by decide⟩
  norm_num [pct_change_x100, pctStep]

/-- C4 (amended): the KPI "variation over the period" equals
`(last - first) / first * 100` — the `percentChange` formula applied to
the first and last values — whenever the first value is nonzero; when the
first value is exactly 0 the code substitutes the default `0.0` instead
of an undefined result. -/
theorem kpi_var_pct_spec (serie : List ℚ) (h : serie ≠ []) :
    (serie.headD 0 ≠ 0 →
        FVal.fin (kpi_var_pct serie) = pctStep (serie.headD 0) (serie.getLastD 0))
    ∧ (serie.headD 0 = 0 → kpi_var_pct serie = 0) := by
  constructor
  · intro hne
    simp only [kpi_var_pct]
    rw [if_pos hne]
    unfold pctStep
    rw [if_neg hne]
  · intro hz
    simp only [kpi_var_pct]
    rw [if_neg (not_not_intro hz)]

theorem kpi_var_pct_spec_witness :
    ([0, 5] : List ℚ) ≠ [] ∧ ([0, 5] : List ℚ).headD 0 = 0
    ∧ kpi_var_pct [0, 5] = 0 :=
  ⟨by decide, by norm_num, (kpi_var_pct_spec [0, 5] (by decide)).2 (by norm_num)⟩

/-- C4 counterexample: on a filtered series whose first value is exactly 0,
the summary scalar is the substituted default `0.0`, not an absent or
undefined result, and it differs from the `percentChange` formula, which
gives positive infinity there. -/
theorem kpi_var_pct_cx :
    kpi_var_pct [0, 5] = 0 ∧ pctStep 0 5 = FVal.pinf := by
  constructor
  · norm_num [kpi_var_pct]
  · norm_num [pctStep]

theorem windowAt_length (xs : List ℚ) (w i : ℕ) (hi : i < xs.length) :
    (windowAt xs w i).length = min (i + 1) w := by
  simp only [windowAt, List.length_drop, List.length_take]
  omega

theorem rollingMean_getD (xs : List ℚ) (w minp i : ℕ) (hi : i < xs.length) :
    (rollingMean xs w minp).getD i none
      = if minp ≤ (windowAt xs w i).length then some (listMean (windowAt xs w i))
        else none := by
  rw [rollingMean, getD_map_range, if_pos hi]

/-- C1 (amended): at every index `i`, the rolling mean with
`min_periods=1` (the volume moving average of line 247) is defined and
equals the mean of the latest `min (i+1) w` values ending at `i`; the
close moving averages of lines 294-295, which leave `min_periods` at the
pandas default (the window size), are defined exactly at the indices
`i ≥ w - 1`, where they equal that same mean, and are absent at every
earlier index. -/
theorem rollingMean_spec (xs : List ℚ) (w i : ℕ) (hw : 1 ≤ w) (hi : i < xs.length) :
    (windowAt xs w i).length = min (i + 1) w
    ∧ listMean (windowAt xs w i) = (windowAt xs w i).sum / ((min (i + 1) w : ℕ) : ℚ)
    ∧ (rollingMean xs w 1).getD i none = some (listMean (windowAt xs w i))
    ∧ (w ≤ i + 1 → (mm xs w).getD i none = some (listMean (windowAt xs w i)))
    ∧ (i + 1 < w → (mm xs w).getD i none = none) := by
  have hlen := windowAt_length xs w i hi
  refine ⟨hlen, ?_, ?_, ?_, ?_⟩
  · rw [listMean, hlen]
  · have hc : 1 ≤ (windowAt xs w i).length := by
      rw [hlen]
      omega
    rw [rollingMean_getD xs w 1 i hi, if_pos hc]
  · intro h
    have hc : w ≤ (windowAt xs w i).length := by
      rw [hlen]
      omega
    rw [mm, rollingMean_getD xs w w i hi, if_pos hc]
  · intro h
    have hc : ¬ w ≤ (windowAt xs w i).length := by
      rw [hlen]
      omega
    rw [mm, rollingMean_getD xs w w i hi, if_neg hc]

theorem rollingMean_spec_witness :
    (1 : ℕ) ≤ 2 ∧ (0 : ℕ) < ([1, 2, 3] : List ℚ).length
    ∧ ((windowAt [1, 2, 3] 2 0).length = min (0 + 1) 2
        ∧ listMean (windowAt [1, 2, 3] 2 0)
            = (windowAt [1, 2, 3] 2 0).sum / ((min (0 + 1) 2 : ℕ) : ℚ)
        ∧ (rollingMean [1, 2, 3] 2 1).getD 0 none
            = some (listMean (windowAt [1, 2, 3] 2 0))
        ∧ (2 ≤ 0 + 1 → (mm [1, 2, 3] 2).getD 0 none
            = some (listMean (windowAt [1, 2, 3] 2 0)))
        ∧ (0 + 1 < 2 → (mm [1, 2, 3] 2).getD 0 none = none)) :=
  ⟨by decide, by decide, rollingMean_spec [1, 2, 3] 2 0 (by decide) (by decide)⟩

/-- C1 counterexample: with windowSize `2 ≥ 1`, the close moving average
of lines 294-295 (`rolling(2).mean()`, pandas default `min_periods`) is
absent at index 0 of the series `[1, 2]` — a partial window yields no
value there, contradicting "defined at every index". -/
theorem rollingMean_cx :
    (1 : ℕ) ≤ 2 ∧ (0 : ℕ) < ([1, 2] : List ℚ).length
    ∧ (mm [1, 2] 2).getD 0 none = none := by
  exact ⟨by decide, by decide, rfl⟩

/-- C8: the cleaned output of `load_data` is sorted non-decreasing by
timestamp, every surviving row has a parsed timestamp and a parsed close
price, and the output is a permutation of exactly the input rows whose
timestamp and close parsed — failing rows are silently discarded, the
function is total and pure. -/
theorem load_data_spec (rows : List RawRow) :
    List.Sorted rowLE (load_data rows)
    ∧ (∀ r ∈ load_data rows, r.openTime.isSome ∧ r.close.isSome)
    ∧ (load_data rows).Perm
        (rows.filter fun r => r.openTime.isSome && r.close.isSome) := by
  refine ⟨List.sorted_insertionSort rowLE _, ?_, List.perm_insertionSort rowLE _⟩
  intro r hr
  have h1 : r ∈ rows.filter fun r => r.openTime.isSome && r.close.isSome :=
    (List.perm_insertionSort rowLE _).mem_iff.mp hr
  have h2 := List.of_mem_filter h1
  simp only [Bool.and_eq_true] at h2
  exact ⟨h2.1, h2.2⟩

theorem load_data_spec_witness :
    (RawRow.mk (some 5) none none none (some 1) none).openTime.isSome
    ∧ (RawRow.mk (some 5) none none none (some 1) none).close.isSome :=
  (load_data_spec [RawRow.mk (some 5) none none none (some 1) none,
      RawRow.mk none none none none (some 2) none]).2.1
    (RawRow.mk (some 5) none none none (some 1) none) (by decide)

theorem shift1_getD (xs : List (Option ℚ)) (i : ℕ) (h : i < xs.length) :
    (shift1 xs).getD i none = if i = 0 then none else xs.getD (i - 1) none := by
  rw [shift1, List.getD_eq_getElem?_getD, List.getElem?_take, if_pos h]
  cases i with
  | zero => simp
  | succ j =>
    rw [List.getElem?_cons_succ, if_neg (Nat.succ_ne_zero j),
      List.getD_eq_getElem?_getD, Nat.add_sub_cancel]

theorem ltB_geB_true (pa pb ca cb : Option ℚ) :
    (ltB pa pb && geB ca cb) = true
      ↔ ∃ a b c d : ℚ, pa = some a ∧ pb = some b ∧ ca = some c ∧ cb = some d
          ∧ a < b ∧ d ≤ c := by
  cases pa <;> cases pb <;> cases ca <;> cases cb <;> simp [ltB, geB]

theorem gtB_leB_true (pa pb ca cb : Option ℚ) :
    (gtB pa pb && leB ca cb) = true
      ↔ ∃ a b c d : ℚ, pa = some a ∧ pb = some b ∧ ca = some c ∧ cb = some d
          ∧ b < a ∧ c ≤ d := by
  cases pa <;> cases pb <;> cases ca <;> cases cb <;> simp [gtB, leB]

/-- C2: an up-crossing is flagged at `i` exactly when both series are
defined at `i-1` and `i`, the short average was strictly below the long
one at `i-1`, and is at or above it at `i`; a down-crossing is the exact
mirror; index 0 is never a crossing, and an undefined value at `i` or
`i-1` excludes `i` from both sets.  On `shortMA = [1, 3, 5]` and
`longMA = [4, 4, 4]` the only up-crossing is at index 2. -/
theorem crossoverEvents_spec (s l : List (Option ℚ)) (i : ℕ)
    (hi : i < min s.length l.length) :
    ((cross_up s l).getD i false = true
      ↔ ∃ pa pb ca cb : ℚ, 1 ≤ i
          ∧ s.getD (i - 1) none = some pa ∧ l.getD (i - 1) none = some pb
          ∧ s.getD i none = some ca ∧ l.getD i none = some cb
          ∧ pa < pb ∧ cb ≤ ca)
    ∧ ((cross_dn s l).getD i false = true
      ↔ ∃ pa pb ca cb : ℚ, 1 ≤ i
          ∧ s.getD (i - 1) none = some pa ∧ l.getD (i - 1) none = some pb
          ∧ s.getD i none = some ca ∧ l.getD i none = some cb
          ∧ pb < pa ∧ ca ≤ cb)
    ∧ cross_up [some 1, some 3, some 5] [some 4, some 4, some 4]
        = [false, false, true]
    ∧ cross_dn [some 1, some 3, some 5] [some 4, some 4, some 4]
        = [false, false, false] := by
  have hs : i < s.length := lt_of_lt_of_le hi (min_le_left _ _)
  have hl : i < l.length := lt_of_lt_of_le hi (min_le_right _ _)
  refine ⟨?_, ?_, by decide, by decide⟩
  · rw [cross_up, getD_map_range, if_pos hi, shift1_getD s i hs,
      shift1_getD l i hl, ltB_geB_true]
    cases i with
    | zero => simp
    | succ j => simp [Nat.succ_ne_zero]
  · rw [cross_dn, getD_map_range, if_pos hi, shift1_getD s i hs,
      shift1_getD l i hl, gtB_leB_true]
    cases i with
    | zero => simp
    | succ j => simp [Nat.succ_ne_zero]

theorem crossoverEvents_spec_witness :
    2 < min ([some 1, some 3, some 5] : List (Option ℚ)).length
        ([some 4, some 4, some 4] : List (Option ℚ)).length
    ∧ cross_up [some 1, some 3, some 5] [some 4, some 4, some 4]
        = [false, false, true] :=
  ⟨by decide,
    (crossoverEvents_spec [some 1, some 3, some 5] [some 4, some 4, some 4] 2
      (by decide)).2.2.1⟩

theorem foldl_min_le_init (ks : List ℕ) (a : ℕ) : ks.foldl min a ≤ a := by
  induction ks generalizing a with
  | nil => exact le_refl a
  | cons k tl ih => exact le_trans (ih (min a k)) (min_le_left a k)

theorem foldl_min_le (ks : List ℕ) : ∀ a x : ℕ, x ∈ ks → ks.foldl min a ≤ x := by
  induction ks with
  | nil =>
    intro a x hx
    cases hx
  | cons k tl ih =>
    intro a x hx
    rcases List.mem_cons.mp hx with rfl | hx2
    · exact le_trans (foldl_min_le_init tl (min a x)) (min_le_right a x)
    · exact ih (min a k) x hx2

theorem le_foldl_max_init (ks : List ℕ) (a : ℕ) : a ≤ ks.foldl max a := by
  induction ks generalizing a with
  | nil => exact le_refl a
  | cons k tl ih => exact le_trans (le_max_left a k) (ih (max a k))

theorem le_foldl_max (ks : List ℕ) : ∀ a x : ℕ, x ∈ ks → x ≤ ks.foldl max a := by
  induction ks with
  | nil =>
    intro a x hx
    cases hx
  | cons k tl ih =>
    intro a x hx
    rcases List.mem_cons.mp hx with rfl | hx2
    · exact le_trans (le_max_right a x) (le_foldl_max_init tl (max a x))
    · exact ih (max a k) x hx2

theorem foldl_min_mem (ks : List ℕ) : ∀ a : ℕ, ks.foldl min a = a ∨ ks.foldl min a ∈ ks := by
  induction ks with
  | nil =>
    intro a
    exact Or.inl rfl
  | cons k tl ih =>
    intro a
    rcases ih (min a k) with h | h
    · rcases min_choice a k with h2 | h2
      · exact Or.inl (by rw [List.foldl_cons, h, h2])
      · refine Or.inr ?_
        rw [List.foldl_cons, h, h2]
        exact List.mem_cons_self k tl
    · exact Or.inr (List.mem_cons_of_mem k h)

theorem foldl_max_mem (ks : List ℕ) : ∀ a : ℕ, ks.foldl max a = a ∨ ks.foldl max a ∈ ks := by
  induction ks with
  | nil =>
    intro a
    exact Or.inl rfl
  | cons k tl ih =>
    intro a
    rcases ih (max a k) with h | h
    · rcases max_choice a k with h2 | h2
      · exact Or.inl (by rw [List.foldl_cons, h, h2])
      · refine Or.inr ?_
        rw [List.foldl_cons, h, h2]
        exact List.mem_cons_self k tl
    · exact Or.inr (List.mem_cons_of_mem k h)

theorem mem_bucketRange (ks : List ℕ) (k : ℕ) :
    k ∈ bucketRange ks ↔ ∃ lo ∈ ks, ∃ hi ∈ ks, lo ≤ k ∧ k ≤ hi := by
  cases ks with
  | nil => simp [bucketRange]
  | cons k0 tl =>
    simp only [bucketRange, List.mem_map, List.mem_range]
    constructor
    · rintro ⟨j, hj, rfl⟩
      have hmn2 : tl.foldl min k0 ∈ k0 :: tl := by
        rcases foldl_min_mem tl k0 with h | h
        · rw [h]
          exact List.mem_cons_self k0 tl
        · exact List.mem_cons_of_mem k0 h
      have hmx2 : tl.foldl max k0 ∈ k0 :: tl := by
        rcases foldl_max_mem tl k0 with h | h
        · rw [h]
          exact List.mem_cons_self k0 tl
        · exact List.mem_cons_of_mem k0 h
      exact ⟨tl.foldl min k0, hmn2, tl.foldl max k0, hmx2,
        Nat.le_add_right _ _, by omega⟩
    · rintro ⟨lo, hlo, hi, hhi, h1, h2⟩
      have hminlo : tl.foldl min k0 ≤ lo := by
        rcases List.mem_cons.mp hlo with rfl | h
        · exact foldl_min_le_init tl lo
        · exact foldl_min_le tl k0 lo h
      have hmaxhi : hi ≤ tl.foldl max k0 := by
        rcases List.mem_cons.mp hhi with rfl | h
        · exact le_foldl_max_init tl hi
        · exact le_foldl_max tl k0 hi h
      exact ⟨k - tl.foldl min k0, by omega, by omega⟩

theorem resample_mem (rows : List (ℕ × ℚ)) (b : ℕ → ℕ) (a : Agg) (k : ℕ) (v : ℚ) :
    (k, v) ∈ resample rows b a
      ↔ k ∈ bucketRange (rows.map fun r => b r.1)
          ∧ aggregate a (bucketVals rows b k) = some v := by
  rw [resample, List.mem_filterMap]
  constructor
  · rintro ⟨k2, hk2, hmap⟩
    rcases Option.map_eq_some'.mp hmap with ⟨v2, hv2, heq⟩
    injection heq with h1 h2
    subst h1
    subst h2
    exact ⟨hk2, hv2⟩
  · rintro ⟨hk, hagg⟩
    refine ⟨k, hk, ?_⟩
    rw [hagg]
    rfl

/-- C6 (amended): with `"last"` aggregation a bucket appears in the output
exactly when some row contributes to it, and its value is the value of the
latest-timestamped contributing row; with `"sum"` aggregation a bucket `k`
appears exactly when some row falls in a bucket `≤ k` and some row in a
bucket `≥ k` — so an interior bucket with zero contributing rows is kept,
zero-filled — and its value is the arithmetic sum of the bucket's values
(e.g. daily volumes 10, 20, 30 in one month-bucket sum to 60). -/
theorem resample_spec (rows : List (ℕ × ℚ)) (b : ℕ → ℕ) (k : ℕ) (v : ℚ) :
    ((k, v) ∈ resample rows b Agg.last
      ↔ (bucketVals rows b k).getLast? = some v)
    ∧ ((k, v) ∈ resample rows b Agg.sum
      ↔ ((∃ r ∈ rows, b r.1 ≤ k) ∧ (∃ r ∈ rows, k ≤ b r.1)
          ∧ v = (bucketVals rows b k).sum))
    ∧ resample [(0, 10), (1, 20), (2, 30)] (fun _ => 5) Agg.sum = [(5, 60)] := by
  have hrange : k ∈ bucketRange (rows.map fun r => b r.1)
      ↔ (∃ r ∈ rows, b r.1 ≤ k) ∧ (∃ r ∈ rows, k ≤ b r.1) := by
    rw [mem_bucketRange]
    constructor
    · rintro ⟨lo, hlo, hi, hhi, h1, h2⟩
      rcases List.mem_map.mp hlo with ⟨r1, hr1, rfl⟩
      rcases List.mem_map.mp hhi with ⟨r2, hr2, rfl⟩
      exact ⟨⟨r1, hr1, h1⟩, ⟨r2, hr2, h2⟩⟩
    · rintro ⟨⟨r1, hr1, h1⟩, ⟨r2, hr2, h2⟩⟩
      exact ⟨b r1.1, List.mem_map.mpr ⟨r1, hr1, rfl⟩, b r2.1,
        List.mem_map.mpr ⟨r2, hr2, rfl⟩, h1, h2⟩
  refine ⟨?_, ?_, ?_⟩
  · rw [resample_mem]
    constructor
    · rintro ⟨hk, hagg⟩
      exact hagg
    · intro hlast
      refine ⟨?_, hlast⟩
      obtain ⟨x, hx⟩ : ∃ x, x ∈ bucketVals rows b k := by
        cases hbv : bucketVals rows b k with
        | nil =>
          rw [hbv] at hlast
          exact absurd hlast (by simp)
        | cons y ys => exact ⟨y, List.mem_cons_self y ys⟩
      rcases List.mem_map.mp hx with ⟨r, hr, rfl⟩
      have hr2 := List.mem_filter.mp hr
      have hbk : b r.1 = k := by simpa using hr2.2
      rw [hrange]
      exact ⟨⟨r, hr2.1, le_of_eq hbk⟩, ⟨r, hr2.1, ge_of_eq hbk⟩⟩
  · rw [resample_mem, hrange]
    constructor
    · rintro ⟨⟨h1, h2⟩, hagg⟩
      injection hagg with h3
      exact ⟨h1, h2, h3.symm⟩
    · rintro ⟨h1, h2, rfl⟩
      exact ⟨⟨h1, h2⟩, rfl⟩
  · norm_num [resample, bucketRange, bucketVals, aggregate, List.range_succ,
      List.range_zero, List.filterMap_append, List.filterMap_cons, List.filterMap_nil,
      List.filter_cons, List.filter_nil, Function.comp]

theorem resample_spec_witness :
    resample [(0, 10), (1, 20), (2, 30)] (fun _ => 5) Agg.sum = [(5, 60)] :=
  (resample_spec [] (fun t => t) 0 0).2.2

/-- C6 counterexample: resampling the rows with timestamps 0 and 2 into
unit buckets with `"sum"` aggregation keeps the empty middle bucket 1 and
zero-fills it: the output is `[(0, 10), (1, 0), (2, 30)]` although no row
contributes to bucket 1 — refuting "the output contains a bucket only if
at least one row contributes to it". -/
theorem resample_cx :
    resample [(0, 10), (2, 30)] id Agg.sum = [(0, 10), (1, 0), (2, 30)]
    ∧ bucketVals [(0, 10), (2, 30)] id 1 = [] := by
  constructor
  · norm_num [resample, bucketRange, bucketVals, aggregate, List.range_succ,
      List.range_zero, List.filterMap_append, List.filterMap_cons, List.filterMap_nil,
      List.filter_cons, List.filter_nil, Function.comp]
  · norm_num [bucketVals]
